import Mathlib

set_option maxHeartbeats 1600000

/-!
A verification development for the CalCraft calendar core
(`calendarUtils` and the `MonthPage` layout code).

The TypeScript source manipulates JavaScript `Date` values.  We model a
`Date` as its epoch-milliseconds value (an integer), together with the
ECMAScript calendar functions (`DayFromYear`, `YearFromTime`,
`MonthFromTime`, `DateFromTime`, `MakeDay`, `MakeTime`, `MakeDate`, ...)
over the proleptic Gregorian calendar, exactly as the ECMAScript
specification defines them.  Local ("floating") time is modelled by a
fixed offset `tzMs` from UTC, passed explicitly wherever the source uses
local-time accessors or constructors.  Lean's `Int` division `/` rounds
toward negative infinity for positive divisors, which matches the
`floor` used throughout the ECMAScript date algorithms.
-/

/-- ECMAScript `DayFromYear`: the day number (days since 1970-01-01)
of January 1 of Gregorian year `y`. -/
def dayFromYear (y : Int) : Int :=
  365 * (y - 1970) + (y - 1969) / 4 - (y - 1901) / 100 + (y - 1601) / 400

/-- First-stage estimate for inverting `dayFromYear`. -/
def yearGuess (d : Int) : Int := 1970 + (400 * d) / 146097

/-- Second stage: bump the estimate up when it is one year low. -/
def yearGuess2 (d : Int) : Int :=
  if dayFromYear (yearGuess d + 1) ≤ d then yearGuess d + 1 else yearGuess d

/-- ECMAScript `YearFromTime` at day granularity: the unique year `y`
with `dayFromYear y ≤ d < dayFromYear (y+1)`. -/
def yearFromDay (d : Int) : Int :=
  if d < dayFromYear (yearGuess2 d) then yearGuess2 d - 1 else yearGuess2 d

/-- 1 for Gregorian leap years, 0 otherwise (ECMAScript `InLeapYear`). -/
def leapBit (y : Int) : Int :=
  if (y % 4 = 0 ∧ y % 100 ≠ 0) ∨ y % 400 = 0 then 1 else 0

/-- ECMAScript `DayWithinYear` at day granularity. -/
def dayWithinYearD (d : Int) : Int := d - dayFromYear (yearFromDay d)

/-- Cumulative day count before 0-based month `m` in a year with leap
bit `L` (the month table used by `MonthFromTime` / `MakeDay`). -/
def monthStart (m L : Int) : Int :=
  if m ≤ 0 then 0
  else if m = 1 then 31
  else if m = 2 then 59 + L
  else if m = 3 then 90 + L
  else if m = 4 then 120 + L
  else if m = 5 then 151 + L
  else if m = 6 then 181 + L
  else if m = 7 then 212 + L
  else if m = 8 then 243 + L
  else if m = 9 then 273 + L
  else if m = 10 then 304 + L
  else 334 + L

/-- ECMAScript `MonthFromTime`, factored over a day-within-year `w` and
a leap bit `L` (0-based month). -/
def monthOfDWY (w L : Int) : Int :=
  if w < 31 then 0
  else if w < 59 + L then 1
  else if w < 90 + L then 2
  else if w < 120 + L then 3
  else if w < 151 + L then 4
  else if w < 181 + L then 5
  else if w < 212 + L then 6
  else if w < 243 + L then 7
  else if w < 273 + L then 8
  else if w < 304 + L then 9
  else if w < 334 + L then 10
  else 11

/-- ECMAScript `DateFromTime`, factored over a day-within-year `w` and
a leap bit `L` (1-based day of month). -/
def dateOfDWY (w L : Int) : Int := w - monthStart (monthOfDWY w L) L + 1

/-- ECMAScript `MonthFromTime` at day granularity (0-based month). -/
def monthFromDay (d : Int) : Int :=
  monthOfDWY (dayWithinYearD d) (leapBit (yearFromDay d))

/-- ECMAScript `DateFromTime` at day granularity (1-based day of month). -/
def dateFromDay (d : Int) : Int :=
  dateOfDWY (dayWithinYearD d) (leapBit (yearFromDay d))

/-- ECMAScript `MakeDay` (day-number part): months outside `0..11`
carry over into the year, days are free to roll over. -/
def makeDay (y m dt : Int) : Int :=
  dayFromYear (y + m / 12) + monthStart (m % 12) (leapBit (y + m / 12)) + dt - 1

/-- Milliseconds per day. -/
def msPerDay : Int := 86400000

/-- ECMAScript `Day(t)`. -/
def dayNumber (t : Int) : Int := t / 86400000

/-- ECMAScript `TimeWithinDay(t)`. -/
def timeWithinDay (t : Int) : Int := t % 86400000

/-- ECMAScript `YearFromTime`. -/
def yearFromTime (t : Int) : Int := yearFromDay (dayNumber t)

/-- ECMAScript `MonthFromTime` (0-based). -/
def monthFromTime (t : Int) : Int := monthFromDay (dayNumber t)

/-- ECMAScript `DateFromTime` (1-based day of month). -/
def dateFromTime (t : Int) : Int := dateFromDay (dayNumber t)

/-- ECMAScript `HourFromTime`. -/
def hourFromTime (t : Int) : Int := (t / 3600000) % 24

/-- ECMAScript `MinFromTime`. -/
def minFromTime (t : Int) : Int := (t / 60000) % 60

/-- ECMAScript `SecFromTime`. -/
def secFromTime (t : Int) : Int := (t / 1000) % 60

/-- ECMAScript `WeekDay` (0 = Sunday; day 0 = 1970-01-01 was a Thursday). -/
def weekDay (t : Int) : Int := (dayNumber t + 4) % 7

/-- ECMAScript `MakeTime` (no clipping: fields may overflow freely). -/
def makeTime (h mi s ms : Int) : Int := h * 3600000 + mi * 60000 + s * 1000 + ms

/-- ECMAScript `MakeDate`. -/
def makeDate (day time : Int) : Int := day * 86400000 + time

/-- A JavaScript `Date`: its epoch-milliseconds value. -/
structure JSDate where
  ms : Int
deriving DecidableEq

/-- ECMAScript `MakeFullYear`: years `0..99` denote `1900..1999` in the
`Date.UTC` / `new Date(y, m, ...)` constructors. -/
def jsFullYear (y : Int) : Int := if 0 ≤ y ∧ y ≤ 99 then 1900 + y else y

/-- `new Date(Date.UTC(y, m, d, h, mi, s))`. -/
def dateUTC (y m d h mi s : Int) : JSDate :=
  ⟨makeDate (makeDay (jsFullYear y) m d) (makeTime h mi s 0)⟩

/-- `new Date(y, m, d, h, mi, s)` in an environment whose fixed local
offset from UTC is `tzMs` milliseconds. -/
def newDateLocal (tzMs y m d h mi s : Int) : JSDate :=
  ⟨makeDate (makeDay (jsFullYear y) m d) (makeTime h mi s 0) - tzMs⟩

def getTime (t : JSDate) : Int := t.ms

def getUTCFullYear (t : JSDate) : Int := yearFromTime t.ms

def getUTCMonth (t : JSDate) : Int := monthFromTime t.ms

def getUTCDate (t : JSDate) : Int := dateFromTime t.ms

def getUTCHours (t : JSDate) : Int := hourFromTime t.ms

def getUTCMinutes (t : JSDate) : Int := minFromTime t.ms

def getUTCSeconds (t : JSDate) : Int := secFromTime t.ms

/-- `d.setUTCFullYear(y)`: keep month, date and time-of-day, replace the
year (no 1900 quirk here, per ECMAScript). -/
def setUTCFullYear (t : JSDate) (y : Int) : JSDate :=
  ⟨makeDate (makeDay y (monthFromTime t.ms) (dateFromTime t.ms)) (timeWithinDay t.ms)⟩

/-- `d.getFullYear()` under fixed local offset `tzMs`. -/
def getFullYear (tzMs : Int) (t : JSDate) : Int := yearFromTime (t.ms + tzMs)

/-- `d.getMonth()` under fixed local offset `tzMs`. -/
def getMonth (tzMs : Int) (t : JSDate) : Int := monthFromTime (t.ms + tzMs)

/-- `d.getDate()` under fixed local offset `tzMs`. -/
def getDate (tzMs : Int) (t : JSDate) : Int := dateFromTime (t.ms + tzMs)

/-- `d.getDay()` under fixed local offset `tzMs`. -/
def getDay (tzMs : Int) (t : JSDate) : Int := weekDay (t.ms + tzMs)

/-! ## The calendar data model and `calendarUtils` -/

/-- A parsed calendar event (`CalendarEvent` in `types.ts`); fields the
parser may leave unset are `Option`s. -/
structure CalendarEvent where
  title : String
  startDate : JSDate
  endDate : Option JSDate := none
  description : Option String := none
  rrule : Option String := none
deriving DecidableEq

/-- JavaScript `String.prototype.trim` whitespace (whitespace and line
terminator code points). -/
def isJsSpace (c : Char) : Bool :=
  c = ' ' || c = '\t' || c = '\n' || c = '\r' || c = '\x0b' || c = '\x0c' ||
    c = ' ' || c = '﻿' || c = ' ' || c = ' '

/-- JS `trim`: drop whitespace from both ends. -/
def jsTrim (cs : List Char) : List Char :=
  ((cs.dropWhile (isJsSpace ·)).reverse.dropWhile (isJsSpace ·)).reverse

/-- `parseInt` on a string of decimal digits. -/
def digitsToInt (cs : List Char) : Int :=
  cs.foldl (fun a c => 10 * a + ((c.toNat : Int) - 48)) 0

/-- Do the first 8 characters exist and are they all decimal digits? -/
def leading8Digits (cs : List Char) : Bool :=
  decide (8 ≤ cs.length) && (cs.take 8).all Char.isDigit

/-- The loose fallback scan of `parseICSDate`: the leftmost run of 8
consecutive digits, read as `YYYY`, 0-based month, `DD` — mirroring the
unanchored regex `(\d{4})(\d{2})(\d{2})`. -/
def scanYMD : List Char → Option (Int × Int × Int)
  | [] => none
  | x :: rest =>
    if leading8Digits (x :: rest) then
      some (digitsToInt ((x :: rest).take 4),
        digitsToInt (((x :: rest).drop 4).take 2) - 1,
        digitsToInt (((x :: rest).drop 6).take 2))
    else scanYMD rest

/-- The optional `T HHMMSS` + optional `Z` tail of the anchored date
regex; `none` when the optional group does not participate. -/
def timeDigits : List Char → Option (Int × Int × Int × Bool)
  | 'T' :: a :: b :: c :: d :: e :: f :: rest =>
    if a.isDigit && b.isDigit && c.isDigit && d.isDigit && e.isDigit && f.isDigit then
      some (digitsToInt [a, b], digitsToInt [c, d], digitsToInt [e, f],
        match rest with | 'Z' :: _ => true | _ => false)
    else none
  | _ => none

/-- Build the date for a successful anchored match (`cs` starts with 8
digits). -/
def dateFromIcsMatch (tzMs : Int) (cs : List Char) : JSDate :=
  match timeDigits (cs.drop 8) with
  | some (hh, mm, ss, z) =>
    if z then
      dateUTC (digitsToInt (cs.take 4)) (digitsToInt ((cs.drop 4).take 2) - 1)
        (digitsToInt ((cs.drop 6).take 2)) hh mm ss
    else
      newDateLocal tzMs (digitsToInt (cs.take 4)) (digitsToInt ((cs.drop 4).take 2) - 1)
        (digitsToInt ((cs.drop 6).take 2)) hh mm ss
  | none =>
    dateUTC (digitsToInt (cs.take 4)) (digitsToInt ((cs.drop 4).take 2) - 1)
      (digitsToInt ((cs.drop 6).take 2)) 0 0 0

/-- `parseICSDate` from `calendarUtils`, over a character list.  The
anchored pattern `(\d{4})(\d{2})(\d{2})` + optional `T(\d{2})(\d{2})(\d{2})(Z)?`
is tried at the start of the trimmed token; failing that, the loose scan
for 8 consecutive digits on the raw token; failing that, the current
instant `now` (`new Date()`) is returned. -/
def parseICSDateL (tzMs : Int) (now : JSDate) (cs : List Char) : JSDate :=
  if leading8Digits (jsTrim cs) then dateFromIcsMatch tzMs (jsTrim cs)
  else
    match scanYMD cs with
    | some (y, mo, da) => dateUTC y mo da 0 0 0
    | none => now

/-- `parseICSDate` on a string. -/
def parseICSDate (tzMs : Int) (now : JSDate) (icsDate : String) : JSDate :=
  parseICSDateL tzMs now icsDate.toList

/-- Unfold ICS continuation lines: `data.replace(/\r?\n[ \t]/g, '')`.
The regex scan is rendered as a single-pass state machine; `pending`
holds the line-break characters seen so far that may still begin a
match (`[]`, `['\r']`, `['\n']` or `['\r', '\n']`) and is flushed to
the output as soon as the match fails. -/
def unfoldGo (pending : List Char) : List Char → List Char
  | [] => pending
  | c :: rest =>
    if pending = ['\r'] then
      if c = '\n' then unfoldGo ['\r', '\n'] rest
      else if c = '\r' then '\r' :: unfoldGo ['\r'] rest
      else '\r' :: c :: unfoldGo [] rest
    else if pending = ['\n'] then
      if c = ' ' ∨ c = '\t' then unfoldGo [] rest
      else if c = '\r' then '\n' :: unfoldGo ['\r'] rest
      else if c = '\n' then '\n' :: unfoldGo ['\n'] rest
      else '\n' :: c :: unfoldGo [] rest
    else if pending = ['\r', '\n'] then
      if c = ' ' ∨ c = '\t' then unfoldGo [] rest
      else if c = '\r' then '\r' :: '\n' :: unfoldGo ['\r'] rest
      else if c = '\n' then '\r' :: '\n' :: unfoldGo ['\n'] rest
      else '\r' :: '\n' :: c :: unfoldGo [] rest
    else
      if c = '\r' then unfoldGo ['\r'] rest
      else if c = '\n' then unfoldGo ['\n'] rest
      else c :: unfoldGo [] rest

/-- `data.replace(/\r?\n[ \t]/g, '')`. -/
def unfoldICS (cs : List Char) : List Char := unfoldGo [] cs

/-- Split into logical lines: `unfolded.split(/\r?\n/)` (`acc` holds the
current line, reversed). -/
def splitICSLines (acc : List Char) : List Char → List (List Char)
  | [] => [acc.reverse]
  | '\r' :: '\n' :: rest => acc.reverse :: splitICSLines [] rest
  | '\n' :: rest => acc.reverse :: splitICSLines [] rest
  | c :: rest => splitICSLines (c :: acc) rest

/-- Global replacement of the two-character escape `\x` by `r`
(`value.replace(/\\x/g, r)`), again as a single-pass scan; `pend`
records a `\` that has been read but whose match is still undecided. -/
def replaceEscGo (x r : Char) (pend : Bool) : List Char → List Char
  | [] => if pend then ['\\'] else []
  | c :: rest =>
    if pend then
      if c = x then r :: replaceEscGo x r false rest
      else if c = '\\' then '\\' :: replaceEscGo x r true rest
      else '\\' :: c :: replaceEscGo x r false rest
    else
      if c = '\\' then replaceEscGo x r true rest
      else c :: replaceEscGo x r false rest

/-- `value.replace(/\\x/g, r)`. -/
def replaceEsc (x r : Char) (cs : List Char) : List Char := replaceEscGo x r false cs

/-- `value.replace(/\\,/g, ',').replace(/\\n/g, '\n')`. -/
def unescapeICS (cs : List Char) : List Char :=
  replaceEsc 'n' '\n' (replaceEsc ',' ',' cs)

/-- Split a line at its first `:` (JS `indexOf` + `substring`);
`none` when the line has no colon. -/
def splitColon (cs : List Char) : Option (List Char × List Char) :=
  if (':' : Char) ∈ cs then
    some (cs.takeWhile (· ≠ ':'), (cs.dropWhile (· ≠ ':')).tail)
  else none

/-- ASCII uppercasing, as `toUpperCase` acts on the ASCII keys that the
parser compares against. -/
def toUpperL (cs : List Char) : List Char := cs.map Char.toUpper

/-- `propPart.split(';')[0]`. -/
def beforeSemi (cs : List Char) : List Char := cs.takeWhile (· ≠ ';')

/-- The open-event accumulator (`Partial<CalendarEvent>`). -/
structure ICSAcc where
  title : Option String := none
  startDate : Option JSDate := none
  endDate : Option JSDate := none
  description : Option String := none
  rrule : Option String := none
deriving DecidableEq

/-- Parser state: committed events plus the open accumulator. -/
structure ICSState where
  events : List CalendarEvent
  current : Option ICSAcc
deriving DecidableEq

/-- The commit performed at `END:VEVENT`: the accumulator becomes an
event only if it has a truthy (non-empty) title and a start date. -/
def commitAcc (acc : ICSAcc) : List CalendarEvent :=
  match acc.title, acc.startDate with
  | some t, some s =>
    if t ≠ "" then
      [{ title := t, startDate := s, endDate := acc.endDate,
         description := acc.description, rrule := acc.rrule }]
    else []
  | _, _ => []

/-- Property handling inside an open event (the `switch` on the key). -/
def processProp (tzMs : Int) (now : JSDate) (acc : ICSAcc)
    (key value : List Char) : ICSAcc :=
  if key = "SUMMARY".toList then
    { acc with title := some (unescapeICS value).asString }
  else if key = "RRULE".toList then { acc with rrule := some value.asString }
  else if key = "DTSTART".toList then
    { acc with startDate := some (parseICSDateL tzMs now value) }
  else if key = "DTEND".toList then
    { acc with endDate := some (parseICSDateL tzMs now value) }
  else if key = "DESCRIPTION".toList then
    { acc with description := some (unescapeICS value).asString }
  else acc

/-- One logical line of the `parseICS` state machine. -/
def processLine (tzMs : Int) (now : JSDate) (st : ICSState) (line : List Char) : ICSState :=
  if jsTrim line = [] then st
  else
    match splitColon line with
    | none => st
    | some (propPart, value) =>
      if toUpperL (beforeSemi propPart) = "BEGIN".toList ∧
          toUpperL value = "VEVENT".toList then
        { st with current := some {} }
      else if toUpperL (beforeSemi propPart) = "END".toList ∧
          toUpperL value = "VEVENT".toList then
        match st.current with
        | some acc => { events := st.events ++ commitAcc acc, current := none }
        | none => { st with current := none }
      else
        match st.current with
        | some acc =>
          { st with current := some (processProp tzMs now acc (toUpperL (beforeSemi propPart)) value) }
        | none => st

/-- Fold the state machine over the logical lines. -/
def processLines (tzMs : Int) (now : JSDate) (st : ICSState) : List (List Char) → ICSState
  | [] => st
  | l :: ls => processLines tzMs now (processLine tzMs now st l) ls

/-- `parseICS` from `calendarUtils`. -/
def parseICS (tzMs : Int) (now : JSDate) (data : String) : List CalendarEvent :=
  (processLines tzMs now ⟨[], none⟩ (splitICSLines [] (unfoldICS data.toList))).events

/-- Substring test (used for the regex test `/FREQ=YEARLY/i`). -/
def containsSub (pat : List Char) : List Char → Bool
  | [] => pat.isEmpty
  | c :: rest => pat.isPrefixOf (c :: rest) || containsSub pat rest

/-- `/FREQ=YEARLY/i.test(r)`. -/
def isYearlyRRule (r : String) : Bool :=
  containsSub "FREQ=YEARLY".toList (toUpperL r.toList)

/-- The guard `anyEv.rrule && /FREQ=YEARLY/i.test(anyEv.rrule)` (an
absent — or empty, hence falsy — rule can never match the pattern). -/
def isYearlyEvent (ev : CalendarEvent) : Bool :=
  match ev.rrule with
  | some r => isYearlyRRule r
  | none => false

/-- The all-day test of `expandRecurringForYear`: start (and end, when
present) at an exact UTC midnight, to the second. -/
def isAllDayEvent (ev : CalendarEvent) : Bool :=
  getUTCHours ev.startDate == 0 && getUTCMinutes ev.startDate == 0 &&
    getUTCSeconds ev.startDate == 0 &&
    (match ev.endDate with
     | none => true
     | some ed =>
       getUTCHours ed == 0 && getUTCMinutes ed == 0 && getUTCSeconds ed == 0)

/-- The new start instant: rebuild the start from its UTC fields, then
`setUTCFullYear(targetYear)`. -/
def expandStart (ev : CalendarEvent) (targetYear : Int) : JSDate :=
  setUTCFullYear
    (dateUTC (getUTCFullYear ev.startDate) (getUTCMonth ev.startDate)
      (getUTCDate ev.startDate) (getUTCHours ev.startDate)
      (getUTCMinutes ev.startDate) (getUTCSeconds ev.startDate)) targetYear

/-- The shifted end instant (both the multi-day all-day case and the
timed case rebuild the end from its UTC fields and substitute the
year). -/
def expandEnd (ed : JSDate) (targetYear : Int) : JSDate :=
  setUTCFullYear
    (dateUTC (getUTCFullYear ed) (getUTCMonth ed) (getUTCDate ed)
      (getUTCHours ed) (getUTCMinutes ed) (getUTCSeconds ed)) targetYear

/-- `diffDays`: millisecond difference of the UTC-midnight-truncated
endpoints, divided by `1000*60*60*24` (the difference is always a
multiple of a day, so integer division is exact). -/
def icsDiffDays (sd ed : JSDate) : Int :=
  (getTime (dateUTC (getUTCFullYear ed) (getUTCMonth ed) (getUTCDate ed) 0 0 0) -
      getTime (dateUTC (getUTCFullYear sd) (getUTCMonth sd) (getUTCDate sd) 0 0 0)) /
    (1000 * 60 * 60 * 24)

/-- The `newEnd` computation of the yearly branch. -/
def expandNewEnd (ev : CalendarEvent) (targetYear : Int) : Option JSDate :=
  match ev.endDate with
  | none => none
  | some ed =>
    if isAllDayEvent ev then
      if icsDiffDays ev.startDate ed > 1 then some (expandEnd ed targetYear) else none
    else some (expandEnd ed targetYear)

/-- The expanded instance pushed by the yearly branch: title and
description verbatim, new start/end, and no recurrence rule. -/
def yearlyInstance (ev : CalendarEvent) (targetYear : Int) : CalendarEvent :=
  { title := ev.title, startDate := expandStart ev targetYear,
    endDate := expandNewEnd ev targetYear, description := ev.description,
    rrule := none }

/-- The per-event step of `expandRecurringForYear`'s loop. -/
def expandOne (ev : CalendarEvent) (targetYear : Int) : List CalendarEvent :=
  if isYearlyEvent ev then [yearlyInstance ev targetYear]
  else if getUTCFullYear ev.startDate = targetYear then [ev] else []

/-- `expandRecurringForYear` from `calendarUtils`. -/
def expandRecurringForYear : List CalendarEvent → Int → List CalendarEvent
  | [], _ => []
  | ev :: rest, y => expandOne ev y ++ expandRecurringForYear rest y

/-- `getDaysInMonth` from `calendarUtils`:
`new Date(year, month + 1, 0).getDate()`. -/
def getDaysInMonth (tzMs month year : Int) : Int :=
  getDate tzMs (newDateLocal tzMs year (month + 1) 0 0 0 0)

/-- `getFirstDayOfMonth` from `calendarUtils`:
`new Date(year, month, 1).getDay()`. -/
def getFirstDayOfMonth (tzMs month year : Int) : Int :=
  getDay tzMs (newDateLocal tzMs year month 1 0 0 0)

/-! ## The grid layout and page geometry of `MonthPage.tsx` -/

/-- One cell of the `cells` array in `renderBlock('grid')`:
`{ day: number | null; label: string }` — `day := none` renders a
weekday header, `day := some (-1)` a blank pad, `day := some n` (n ≥ 1)
a day cell. -/
structure GridCell where
  day : Option Int
  label : String
deriving DecidableEq

/-- The locale's weekday names (`toLocaleString` with `weekday:
'narrow' / 'short' / 'long'`), indexed by `getDay()` (0 = Sunday). -/
structure WeekdayNames where
  narrow : Int → String
  short : Int → String
  long : Int → String

/-- `getDayLabel(date, totalCols)` from `MonthPage.tsx`. -/
def getDayLabel (names : WeekdayNames) (tzMs : Int) (date : JSDate)
    (totalCols : Int) : String :=
  if totalCols > 15 then names.narrow (getDay tzMs date)
  else if totalCols > 7 then names.short (getDay tzMs date)
  else names.long (getDay tzMs date)

/-- `Math.ceil(a / b)` for integers with `b > 0`. -/
def jsCeilDiv (a b : Int) : Int := -((-a) / b)

/-- One `r`-iteration of the linear-strip loop: a header row followed
by a day row, `cols` cells each; a position with
`dateNum = r*cols + c + 1 > daysInMonth` becomes a Blank pad. -/
def stripPairCells (names : WeekdayNames) (tzMs year month daysInMonth cols : Int)
    (r : Nat) : List GridCell :=
  ((List.range cols.toNat).map fun (c : ℕ) =>
    if ((r : Int) * cols + (c : Int) + 1) ≤ daysInMonth then
      { day := none,
        label := getDayLabel names tzMs
          (newDateLocal tzMs year month ((r : Int) * cols + (c : Int) + 1) 0 0 0) cols }
    else { day := some (-1), label := "" }) ++
  ((List.range cols.toNat).map fun (c : ℕ) =>
    if ((r : Int) * cols + (c : Int) + 1) ≤ daysInMonth then
      { day := some ((r : Int) * cols + (c : Int) + 1), label := "" }
    else { day := some (-1), label := "" })

/-- The `cells` array built by `renderBlock('grid')` in `MonthPage.tsx`:
`gridRows = 0` is the standard 7-column mode (7 weekday headers,
`firstDay` blanks, one cell per day — and nothing after); `gridRows > 0`
is linear-strip mode with `columns = Math.ceil(daysInMonth/gridRows)`. -/
def gridCellsOf (names : WeekdayNames) (tzMs year month : Int)
    (daysInMonth firstDay gridRows : Int) : List GridCell :=
  if gridRows = 0 then
    (["Sun", "Mon", "Tue", "Wed", "Thu", "Fri", "Sat"].map
        fun n => { day := none, label := n }) ++
      ((List.range firstDay.toNat).map fun (_ : ℕ) =>
        ({ day := some (-1), label := "" } : GridCell)) ++
      ((List.range daysInMonth.toNat).map fun (i : ℕ) =>
        ({ day := some ((i : Int) + 1), label := "" } : GridCell))
  else
    (List.range gridRows.toNat).flatMap
      (stripPairCells names tzMs year month daysInMonth
        (jsCeilDiv daysInMonth gridRows))

/-- The grid cells of a month page: `daysInMonth` and `firstDay` come
from `calendarUtils` exactly as in the component. -/
def monthGridCells (names : WeekdayNames) (tzMs year month gridRows : Int) :
    List GridCell :=
  gridCellsOf names tzMs year month (getDaysInMonth tzMs month year)
    (getFirstDayOfMonth tzMs month year) gridRows

/-- The `pageSize` selector of `AppConfig`. -/
inductive PageSize
  | a4
  | a5
  | custom
deriving DecidableEq

/-- The `dimensionUnit` selector (`'mm' | 'in'`). -/
inductive DimUnit
  | mm
  | inch
deriving DecidableEq

/-- The page-size-relevant part of `AppConfig`; JS numbers are modelled
as exact rationals. -/
structure PageSizeConfig where
  pageSize : PageSize
  customWidth : Rat
  customHeight : Rat
  dimensionUnit : DimUnit

/-- `currentWidth` from `MonthPage.tsx`. -/
def currentWidth (c : PageSizeConfig) : Rat :=
  if c.pageSize = PageSize.a4 then 210
  else if c.pageSize = PageSize.a5 then 148
  else if c.dimensionUnit = DimUnit.inch then c.customWidth * (254 / 10)
  else c.customWidth

/-- `currentHeight` from `MonthPage.tsx`. -/
def currentHeight (c : PageSizeConfig) : Rat :=
  if c.pageSize = PageSize.a4 then 297
  else if c.pageSize = PageSize.a5 then 210
  else if c.dimensionUnit = DimUnit.inch then c.customHeight * (254 / 10)
  else c.customHeight

/-- `pageScale` from `MonthPage.tsx`. -/
def pageScale (c : PageSizeConfig) : Rat := currentWidth c / 210

/-- 2024-02-29T00:00:00Z with a yearly rule. -/
def feb29Ev : CalendarEvent :=
  { title := "L", startDate := ⟨1709164800000⟩, rrule := some "FREQ=YEARLY" }

/-- 2024-07-04, all-day, exclusive end 2024-07-05, yearly rule. -/
def jul4Ev : CalendarEvent :=
  { title := "4th", startDate := ⟨1720051200000⟩, endDate := some ⟨1720137600000⟩,
    rrule := some "FREQ=YEARLY" }

/-- 2023-07-03 all-day, exclusive end 2023-07-06 (3-day span), yearly. -/
def jul3Ev : CalendarEvent :=
  { title := "S", startDate := ⟨1688342400000⟩, endDate := some ⟨1688601600000⟩,
    rrule := some "FREQ=YEARLY" }

/-! ## C6 -/

/-- A logical line that the state machine treats as a `BEGIN:VEVENT` or
`END:VEVENT` marker. -/
def isMarkerLine (line : List Char) : Bool :=
  decide (jsTrim line ≠ []) &&
    match splitColon line with
    | none => false
    | some (propPart, value) =>
      (decide (toUpperL (beforeSemi propPart) = "BEGIN".toList) ||
        decide (toUpperL (beforeSemi propPart) = "END".toList)) &&
        decide (toUpperL value = "VEVENT".toList)

/-- The effect of one non-marker line on an open accumulator. -/
def propStep (tzMs : Int) (now : JSDate) (acc : ICSAcc) (line : List Char) : ICSAcc :=
  if jsTrim line = [] then acc
  else
    match splitColon line with
    | none => acc
    | some (propPart, value) =>
      processProp tzMs now acc (toUpperL (beforeSemi propPart)) value

/-- The property lines of the C6 witness block. -/
def c6props : List (List Char) := ["SUMMARY:Party".toList, "DTSTART:20250101".toList]

/-! ## C4 -/

/-- English weekday names, the `'default'`-locale model used for
concrete grid evaluations. -/
def englishNames : WeekdayNames :=
  { narrow := fun w => ["S", "M", "T", "W", "T", "F", "S"].getD w.toNat "",
    short := fun w => ["Sun", "Mon", "Tue", "Wed", "Thu", "Fri", "Sat"].getD w.toNat "",
    long := fun w => ["Sunday", "Monday", "Tuesday", "Wednesday", "Thursday",
      "Friday", "Saturday"].getD w.toNat "" }

/-- The day numbers carried by the day cells of a cell list (headers
have no day, pads carry `-1`). -/
def dayCellNumbers (cells : List GridCell) : List Int :=
  cells.filterMap (fun c =>
    match c.day with
    | some n => if 1 ≤ n then some n else none
    | none => none)

theorem dayFromYear_yearFromDay_le (d : Int) : dayFromYear (yearFromDay d) ≤ d := by
  unfold yearFromDay yearGuess2 yearGuess dayFromYear
  split_ifs <;> omega

theorem lt_dayFromYear_yearFromDay_succ (d : Int) : d < dayFromYear (yearFromDay d + 1) := by
  unfold yearFromDay
  rw [apply_ite (· + 1), Int.sub_add_cancel]
  unfold yearGuess2 yearGuess dayFromYear
  split_ifs <;> omega

theorem dayFromYear_succ (y : Int) : dayFromYear (y + 1) = dayFromYear y + 365 + leapBit y := by
  unfold dayFromYear leapBit
  split_ifs <;> omega

theorem leapBit_nonneg (y : Int) : 0 ≤ leapBit y := by
  unfold leapBit; split_ifs <;> omega

theorem leapBit_le_one (y : Int) : leapBit y ≤ 1 := by
  unfold leapBit; split_ifs <;> omega

theorem dayFromYear_mono {y y' : Int} (h : y ≤ y') : dayFromYear y ≤ dayFromYear y' := by
  unfold dayFromYear; omega

/-- The characterization pins `yearFromDay` down uniquely. -/
theorem yearFromDay_eq_of_range {y d : Int}
    (h1 : dayFromYear y ≤ d) (h2 : d < dayFromYear (y + 1)) : yearFromDay d = y := by
  have hle := dayFromYear_yearFromDay_le d
  have hlt := lt_dayFromYear_yearFromDay_succ d
  by_contra hne
  rcases lt_or_gt_of_ne hne with hlt' | hgt
  · have : yearFromDay d + 1 ≤ y := by omega
    have := dayFromYear_mono this
    omega
  · have : y + 1 ≤ yearFromDay d := by omega
    have := dayFromYear_mono this
    omega

theorem dayWithinYearD_nonneg (d : Int) : 0 ≤ dayWithinYearD d := by
  have := dayFromYear_yearFromDay_le d
  unfold dayWithinYearD; omega

theorem dayWithinYearD_lt (d : Int) : dayWithinYearD d < 365 + leapBit (yearFromDay d) := by
  have h1 := lt_dayFromYear_yearFromDay_succ d
  have h2 := dayFromYear_succ (yearFromDay d)
  unfold dayWithinYearD; omega

theorem monthOfDWY_bounds (w L : Int) : 0 ≤ monthOfDWY w L ∧ monthOfDWY w L ≤ 11 := by
  unfold monthOfDWY; split_ifs <;> omega

theorem monthStart_nonneg (m L : Int) (hL : 0 ≤ L) : 0 ≤ monthStart m L := by
  unfold monthStart; split_ifs <;> omega

theorem monthStart_le (m L : Int) (hm : m ≤ 11) (hL0 : 0 ≤ L) (hL : L ≤ 1) :
    monthStart m L ≤ 334 + L := by
  unfold monthStart; split_ifs <;> omega

theorem dateOfDWY_bounds (w L : Int) (h0 : 0 ≤ w) (h1 : w < 365 + L) (hL1 : L ≤ 1) :
    1 ≤ dateOfDWY w L ∧ dateOfDWY w L ≤ 31 := by
  unfold dateOfDWY monthOfDWY
  split_ifs <;> norm_num [monthStart] <;> omega

theorem monthFromDay_bounds (d : Int) : 0 ≤ monthFromDay d ∧ monthFromDay d ≤ 11 := by
  unfold monthFromDay; exact monthOfDWY_bounds _ _

theorem dateFromDay_bounds (d : Int) : 1 ≤ dateFromDay d ∧ dateFromDay d ≤ 31 := by
  unfold dateFromDay
  exact dateOfDWY_bounds _ _ (dayWithinYearD_nonneg d) (dayWithinYearD_lt d)
    (leapBit_le_one (yearFromDay d))

/-- The month/date extraction satisfies the defining equation of the
month table: the day-within-year decomposes as month start plus
(1-based) date minus one. -/
theorem monthStart_dateFromDay (d : Int) :
    monthStart (monthFromDay d) (leapBit (yearFromDay d)) + dateFromDay d - 1 =
      dayWithinYearD d := by
  unfold dateFromDay dateOfDWY monthFromDay
  omega

theorem makeDay_of_bounds {m : Int} (y dt : Int) (h0 : 0 ≤ m) (h1 : m ≤ 11) :
    makeDay y m dt = dayFromYear y + monthStart m (leapBit y) + dt - 1 := by
  have hd : m / 12 = 0 := by omega
  have hm : m % 12 = m := by omega
  unfold makeDay
  rw [hd, hm, add_zero]

/-- A `makeDay` with in-range month and a day of month in `1..31`
lands inside year `y`. -/
theorem yearFromDay_makeDay {m dt : Int} (y : Int)
    (hm0 : 0 ≤ m) (hm1 : m ≤ 11) (hd0 : 1 ≤ dt) (hd1 : dt ≤ 31) :
    yearFromDay (makeDay y m dt) = y := by
  rw [makeDay_of_bounds y dt hm0 hm1]
  have hL0 := leapBit_nonneg y
  have hL1 := leapBit_le_one y
  have hs0 := monthStart_nonneg m (leapBit y) hL0
  have hs1 := monthStart_le m (leapBit y) hm1 hL0 hL1
  have hsucc := dayFromYear_succ y
  exact yearFromDay_eq_of_range (by omega) (by omega)

/-- Round trip: re-assembling a day number from its extracted year,
month and date gives the day number back. -/
theorem makeDay_roundtrip (d : Int) :
    makeDay (yearFromDay d) (monthFromDay d) (dateFromDay d) = d := by
  obtain ⟨hm0, hm1⟩ := monthFromDay_bounds d
  have heq := monthStart_dateFromDay d
  rw [makeDay_of_bounds (yearFromDay d) (dateFromDay d) hm0 hm1]
  have := dayFromYear_yearFromDay_le d
  unfold dayWithinYearD at heq
  omega

theorem yearFromDay_mono {d d' : Int} (h : d ≤ d') : yearFromDay d ≤ yearFromDay d' := by
  by_contra hlt
  push_neg at hlt
  have h1 : yearFromDay d' + 1 ≤ yearFromDay d := by omega
  have h2 := dayFromYear_mono h1
  have h3 := lt_dayFromYear_yearFromDay_succ d'
  have h4 := dayFromYear_yearFromDay_le d
  omega

theorem timeWithinDay_bounds (t : Int) : 0 ≤ timeWithinDay t ∧ timeWithinDay t < 86400000 := by
  unfold timeWithinDay; omega

theorem dayNumber_makeDate {τ : Int} (D : Int) (h0 : 0 ≤ τ) (h1 : τ < 86400000) :
    dayNumber (makeDate D τ) = D := by
  unfold dayNumber makeDate; omega

theorem timeWithinDay_makeDate {τ : Int} (D : Int) (h0 : 0 ≤ τ) (h1 : τ < 86400000) :
    timeWithinDay (makeDate D τ) = τ := by
  unfold timeWithinDay makeDate; omega

theorem hourFromTime_bounds (t : Int) : 0 ≤ hourFromTime t ∧ hourFromTime t < 24 := by
  unfold hourFromTime; omega

theorem minFromTime_bounds (t : Int) : 0 ≤ minFromTime t ∧ minFromTime t < 60 := by
  unfold minFromTime; omega

theorem secFromTime_bounds (t : Int) : 0 ≤ secFromTime t ∧ secFromTime t < 60 := by
  unfold secFromTime; omega

/-- The time-of-day rebuilt from extracted hour/minute/second fields is
a valid time within a day. -/
theorem makeTime_getters_bounds (t : Int) :
    0 ≤ makeTime (hourFromTime t) (minFromTime t) (secFromTime t) 0 ∧
      makeTime (hourFromTime t) (minFromTime t) (secFromTime t) 0 < 86400000 := by
  obtain ⟨a, b⟩ := hourFromTime_bounds t
  obtain ⟨c, d⟩ := minFromTime_bounds t
  obtain ⟨e, f⟩ := secFromTime_bounds t
  unfold makeTime
  constructor <;> nlinarith

/-- `setUTCFullYear` really moves a date into the requested year. -/
theorem getUTCFullYear_setUTCFullYear (t : JSDate) (y : Int) :
    getUTCFullYear (setUTCFullYear t y) = y := by
  unfold getUTCFullYear setUTCFullYear yearFromTime
  obtain ⟨h0, h1⟩ := timeWithinDay_bounds t.ms
  rw [dayNumber_makeDate _ h0 h1]
  obtain ⟨hm0, hm1⟩ := monthFromDay_bounds (dayNumber t.ms)
  obtain ⟨hd0, hd1⟩ := dateFromDay_bounds (dayNumber t.ms)
  exact yearFromDay_makeDay y hm0 hm1 hd0 hd1

theorem dayNumber_setUTCFullYear (t : JSDate) (y : Int) :
    dayNumber (setUTCFullYear t y).ms =
      makeDay y (monthFromTime t.ms) (dateFromTime t.ms) := by
  unfold setUTCFullYear
  obtain ⟨h0, h1⟩ := timeWithinDay_bounds t.ms
  exact dayNumber_makeDate _ h0 h1

theorem timeWithinDay_setUTCFullYear (t : JSDate) (y : Int) :
    timeWithinDay (setUTCFullYear t y).ms = timeWithinDay t.ms := by
  unfold setUTCFullYear
  obtain ⟨h0, h1⟩ := timeWithinDay_bounds t.ms
  exact timeWithinDay_makeDate _ h0 h1

/-- Rebuilding a date from its UTC getters (as `expandRecurringForYear`
does with `Date.UTC`) recovers the day number, provided the year is not
in the `0..99` range that the constructor shifts by 1900. -/
theorem dayNumber_dateUTC_getters (t : JSDate)
    (hy : ¬(0 ≤ getUTCFullYear t ∧ getUTCFullYear t ≤ 99)) :
    dayNumber (dateUTC (getUTCFullYear t) (getUTCMonth t) (getUTCDate t)
      (getUTCHours t) (getUTCMinutes t) (getUTCSeconds t)).ms = dayNumber t.ms := by
  unfold getUTCFullYear yearFromTime at hy
  unfold dateUTC jsFullYear getUTCFullYear getUTCMonth getUTCDate getUTCHours
    getUTCMinutes getUTCSeconds yearFromTime monthFromTime dateFromTime
  rw [if_neg hy]
  obtain ⟨h0, h1⟩ := makeTime_getters_bounds t.ms
  rw [dayNumber_makeDate _ h0 h1]
  exact makeDay_roundtrip (dayNumber t.ms)

/-- Same, with the time-of-day fields zeroed (the `Date.UTC(y, m, d)`
form used for the all-day span computation). -/
theorem dayNumber_dateUTC_midnight (t : JSDate)
    (hy : ¬(0 ≤ getUTCFullYear t ∧ getUTCFullYear t ≤ 99)) :
    (dateUTC (getUTCFullYear t) (getUTCMonth t) (getUTCDate t) 0 0 0).ms =
      makeDate (dayNumber t.ms) 0 := by
  unfold getUTCFullYear yearFromTime at hy
  unfold dateUTC jsFullYear getUTCFullYear getUTCMonth getUTCDate yearFromTime
    monthFromTime dateFromTime
  rw [if_neg hy]
  rw [makeDay_roundtrip (dayNumber t.ms)]
  unfold makeTime
  norm_num

/-! ## Shared helper lemmas -/

/-- At an exact UTC midnight all time-of-day getters vanish. -/
theorem getters_of_midnight {t : Int} (h : timeWithinDay t = 0) :
    hourFromTime t = 0 ∧ minFromTime t = 0 ∧ secFromTime t = 0 := by
  unfold timeWithinDay at h
  unfold hourFromTime minFromTime secFromTime
  omega

/-- At an exact UTC midnight the epoch value is a whole number of days. -/
theorem ms_of_midnight {t : Int} (h : timeWithinDay t = 0) :
    t = dayNumber t * 86400000 := by
  unfold timeWithinDay at h
  unfold dayNumber
  omega

/-- `expandOne` on a non-recurring event keeps it iff its UTC year is
the target year. -/
theorem expandOne_nonYearly {ev : CalendarEvent} (y : Int)
    (h : isYearlyEvent ev = false) :
    expandOne ev y = if getUTCFullYear ev.startDate = y then [ev] else [] := by
  unfold expandOne
  rw [h]
  simp

/-- The expanded instance of a yearly event carries no recurrence rule,
so a second expansion treats it as non-recurring. -/
theorem yearlyInstance_not_yearly (ev : CalendarEvent) (y : Int) :
    isYearlyEvent (yearlyInstance ev y) = false := rfl

/-- The expanded instance's start lands in the target year. -/
theorem yearlyInstance_startYear (ev : CalendarEvent) (y : Int) :
    getUTCFullYear (yearlyInstance ev y).startDate = y :=
  getUTCFullYear_setUTCFullYear _ y

/-! ## C9 -/

/-- C9: the Page Geometry Resolver maps A4 to 210×297 mm and A5 to
148×210 mm; a custom size is taken directly in millimetres and is
multiplied by exactly 25.4 when the unit is inches; and the derived
scale always equals width ÷ 210. -/
theorem pageGeometry_resolution (w h : Rat) (u : DimUnit) :
    currentWidth ⟨PageSize.a4, w, h, u⟩ = 210 ∧
      currentHeight ⟨PageSize.a4, w, h, u⟩ = 297 ∧
      currentWidth ⟨PageSize.a5, w, h, u⟩ = 148 ∧
      currentHeight ⟨PageSize.a5, w, h, u⟩ = 210 ∧
      currentWidth ⟨PageSize.custom, w, h, DimUnit.inch⟩ = w * (254 / 10) ∧
      currentHeight ⟨PageSize.custom, w, h, DimUnit.inch⟩ = h * (254 / 10) ∧
      currentWidth ⟨PageSize.custom, w, h, DimUnit.mm⟩ = w ∧
      currentHeight ⟨PageSize.custom, w, h, DimUnit.mm⟩ = h ∧
      ∀ c : PageSizeConfig, pageScale c = currentWidth c / 210 := by
  refine ⟨?_, ?_, ?_, ?_, ?_, ?_, ?_, ?_, fun c => rfl⟩ <;>
    simp [currentWidth, currentHeight]

/-! ## C2 -/

/-- C2 counterexample: an event at 2024-12-31T23:00:00Z, in an
environment whose fixed local offset is +2 h (7 200 000 ms).  Its local
calendar year is 2025, so the claimed local-or-UTC matching would
include it for target year 2025 — but `expandRecurringForYear` drops
it, because the code checks only `getUTCFullYear`. -/
theorem expandRecurring_local_match_dropped :
    expandRecurringForYear [{ title := "NYE", startDate := ⟨1735686000000⟩ }] 2025 = [] ∧
      (getFullYear 7200000 ⟨1735686000000⟩ = 2025 ∨
        getUTCFullYear ⟨1735686000000⟩ = 2025) := by
  constructor
  · decide
  · left; decide

/-- C2 (amended): a non-recurring event (no rule, or a rule the
`FREQ=YEARLY` test rejects) is included for a target year iff its start
instant's **UTC** calendar year equals the target year; the local-time
interpretation plays no part. -/
theorem nonRecurring_included_iff_utcYear (ev : CalendarEvent) (y : Int)
    (h : isYearlyEvent ev = false) :
    expandRecurringForYear [ev] y =
      if getUTCFullYear ev.startDate = y then [ev] else [] := by
  unfold expandRecurringForYear expandRecurringForYear
  rw [expandOne_nonYearly y h]
  split <;> rfl

/-- Witness for the amended C2 at a concrete input. -/
theorem nonRecurring_included_iff_utcYear_witness :
    isYearlyEvent { title := "X", startDate := ⟨0⟩ } = false ∧
      expandRecurringForYear [{ title := "X", startDate := ⟨0⟩ }] 1970 =
        [{ title := "X", startDate := ⟨0⟩ }] := by
  refine ⟨by decide, ?_⟩
  rw [nonRecurring_included_iff_utcYear _ 1970 (by decide)]
  decide

/-- Day number of `setUTCFullYear(Date.UTC(year, m, d, hours, minutes,
seconds), y)` where the time fields are a date's getters: the month and
date are re-extracted from the (possibly rolled-over) intermediate day
and re-assembled in year `y`. -/
theorem setUTCFullYear_dateUTC_getters (t : JSDate) (m d y : Int) :
    dayNumber (setUTCFullYear (dateUTC (getUTCFullYear t) m d (getUTCHours t)
      (getUTCMinutes t) (getUTCSeconds t)) y).ms =
      makeDay y (monthFromDay (makeDay (jsFullYear (getUTCFullYear t)) m d))
        (dateFromDay (makeDay (jsFullYear (getUTCFullYear t)) m d)) := by
  rw [dayNumber_setUTCFullYear]
  unfold monthFromTime dateFromTime dateUTC getUTCHours getUTCMinutes getUTCSeconds
  rw [dayNumber_makeDate _ (makeTime_getters_bounds t.ms).1 (makeTime_getters_bounds t.ms).2]

/-! ## C10 -/

/-- Substituting a target year with leap bit 0 into the day obtained as
"February 29 of year `Y`" yields March 1 of the target year, whether or
not the intermediate year `Y` is itself a leap year. -/
theorem feb29_substitution (Y y : Int) (hy : leapBit y = 0) :
    yearFromDay (makeDay y (monthFromDay (makeDay Y 1 29)) (dateFromDay (makeDay Y 1 29))) = y ∧
      monthFromDay (makeDay y (monthFromDay (makeDay Y 1 29)) (dateFromDay (makeDay Y 1 29))) = 2 ∧
      dateFromDay (makeDay y (monthFromDay (makeDay Y 1 29)) (dateFromDay (makeDay Y 1 29))) = 1 := by
  have h1 : makeDay Y 1 29 = dayFromYear Y + 59 := by
    have h31 : monthStart 1 (leapBit Y) = 31 := by norm_num [monthStart]
    rw [makeDay_of_bounds Y 29 (by norm_num) (by norm_num), h31]
    ring
  have hsucc := dayFromYear_succ Y
  have hL0 := leapBit_nonneg Y
  have hLY := leapBit_le_one Y
  have hyY : yearFromDay (dayFromYear Y + 59) = Y :=
    yearFromDay_eq_of_range (by omega) (by omega)
  have hdwy : dayWithinYearD (dayFromYear Y + 59) = 59 := by
    unfold dayWithinYearD; rw [hyY]; ring
  have hm : monthFromDay (dayFromYear Y + 59) = monthOfDWY 59 (leapBit Y) := by
    unfold monthFromDay; rw [hdwy, hyY]
  have hd : dateFromDay (dayFromYear Y + 59) = dateOfDWY 59 (leapBit Y) := by
    unfold dateFromDay; rw [hdwy, hyY]
  have hm20 : monthOfDWY 59 0 = 2 := by decide
  have hd20 : dateOfDWY 59 0 = 1 := by decide
  have hm21 : monthOfDWY 59 1 = 1 := by decide
  have hd21 : dateOfDWY 59 1 = 29 := by decide
  have hms1 : monthStart 1 (leapBit y) = 31 := by norm_num [monthStart]
  have hms2 : monthStart 2 (leapBit y) = 59 + leapBit y := by norm_num [monthStart]
  have key : makeDay y (monthOfDWY 59 (leapBit Y)) (dateOfDWY 59 (leapBit Y)) =
      dayFromYear y + 59 := by
    rcases (by omega : leapBit Y = 0 ∨ leapBit Y = 1) with h | h <;> rw [h]
    · rw [hm20, hd20, makeDay_of_bounds y 1 (by norm_num) (by norm_num), hms2]
      omega
    · rw [hm21, hd21, makeDay_of_bounds y 29 (by norm_num) (by norm_num), hms1]
      omega
  rw [h1, hm, hd, key]
  have hsucc2 := dayFromYear_succ y
  have hy2 : yearFromDay (dayFromYear y + 59) = y :=
    yearFromDay_eq_of_range (by omega) (by omega)
  have hdwy2 : dayWithinYearD (dayFromYear y + 59) = 59 := by
    unfold dayWithinYearD; rw [hy2]; ring
  refine ⟨hy2, ?_, ?_⟩
  · unfold monthFromDay; rw [hdwy2, hy2, hy, hm20]
  · unfold dateFromDay; rw [hdwy2, hy2, hy, hd20]

/-- C10: a yearly-recurring event starting on February 29 (of a leap
year), expanded into a target year that is not a leap year, yields an
instance dated March 1 of the target year (UTC month 2, day 1,
0-based months) — not February 28. -/
theorem feb29_expansion_rolls_to_march1 (ev : CalendarEvent) (y : Int)
    (h1 : isYearlyEvent ev = true)
    (h2 : getUTCMonth ev.startDate = 1) (h3 : getUTCDate ev.startDate = 29)
    (h4 : leapBit y = 0) :
    expandRecurringForYear [ev] y = [yearlyInstance ev y] ∧
      getUTCFullYear (yearlyInstance ev y).startDate = y ∧
      getUTCMonth (yearlyInstance ev y).startDate = 2 ∧
      getUTCDate (yearlyInstance ev y).startDate = 1 := by
  refine ⟨by simp [expandRecurringForYear, expandOne, h1], ?_⟩
  have hstart : (yearlyInstance ev y).startDate = expandStart ev y := rfl
  rw [hstart]
  unfold expandStart
  rw [h2, h3]
  have hdn := setUTCFullYear_dateUTC_getters ev.startDate 1 29 y
  unfold getUTCFullYear getUTCHours getUTCMinutes getUTCSeconds yearFromTime at hdn
  unfold getUTCFullYear getUTCMonth getUTCDate getUTCHours getUTCMinutes getUTCSeconds
    yearFromTime monthFromTime dateFromTime
  rw [hdn]
  exact feb29_substitution _ y h4

/-- Witness for C10: the leap day Feb 29 2024 with a yearly rule,
expanded into 2025, lands on 2025-03-01. -/
theorem feb29_expansion_witness :
    isYearlyEvent feb29Ev = true ∧
      expandRecurringForYear [feb29Ev] 2025 = [yearlyInstance feb29Ev 2025] ∧
      getUTCFullYear (yearlyInstance feb29Ev 2025).startDate = 2025 ∧
      getUTCMonth (yearlyInstance feb29Ev 2025).startDate = 2 ∧
      getUTCDate (yearlyInstance feb29Ev 2025).startDate = 1 := by
  refine ⟨by decide, ?_⟩
  exact feb29_expansion_rolls_to_march1 feb29Ev 2025 (by decide) (by decide) (by decide)
    (by decide)

/-! ## C7 -/

/-- C7: a yearly-recurring all-day event whose (exclusive) end instant
is exactly one day after its start yields, for any target year, an
instance with no end instant at all.  The year guard keeps the
reconstruction clear of the constructor's 1900-shift for years `0..99`. -/
theorem oneDay_allDay_expansion_drops_end (ev : CalendarEvent) (ed : JSDate) (y : Int)
    (h1 : isYearlyEvent ev = true)
    (h2 : ev.endDate = some ed)
    (h3 : timeWithinDay ev.startDate.ms = 0)
    (h4 : ed.ms = ev.startDate.ms + 86400000)
    (h5 : 100 ≤ getUTCFullYear ev.startDate) :
    expandRecurringForYear [ev] y = [yearlyInstance ev y] ∧
      (yearlyInstance ev y).endDate = none := by
  refine ⟨by simp [expandRecurringForYear, expandOne, h1], ?_⟩
  obtain ⟨hsdH, hsdM, hsdS⟩ := getters_of_midnight h3
  have hedtod : timeWithinDay ed.ms = 0 := by
    unfold timeWithinDay at h3 ⊢; omega
  obtain ⟨hedH, hedM, hedS⟩ := getters_of_midnight hedtod
  have hall : isAllDayEvent ev = true := by
    unfold isAllDayEvent getUTCHours getUTCMinutes getUTCSeconds
    rw [h2]
    simp [hsdH, hsdM, hsdS, hedH, hedM, hedS]
  have hdayed : dayNumber ed.ms = dayNumber ev.startDate.ms + 1 := by
    unfold timeWithinDay at h3
    unfold dayNumber
    omega
  have hq : ¬(0 ≤ getUTCFullYear ev.startDate ∧ getUTCFullYear ev.startDate ≤ 99) := by
    omega
  have hyed : 100 ≤ getUTCFullYear ed := by
    have hmono := yearFromDay_mono
      (show dayNumber ev.startDate.ms ≤ dayNumber ed.ms by omega)
    unfold getUTCFullYear yearFromTime at h5 ⊢
    omega
  have hqe : ¬(0 ≤ getUTCFullYear ed ∧ getUTCFullYear ed ≤ 99) := by omega
  have hsd_day := dayNumber_dateUTC_midnight ev.startDate hq
  have hed_day := dayNumber_dateUTC_midnight ed hqe
  have hdiff : icsDiffDays ev.startDate ed = 1 := by
    unfold icsDiffDays getTime
    rw [hed_day, hsd_day, hdayed]
    unfold makeDate
    omega
  show expandNewEnd ev y = none
  unfold expandNewEnd
  rw [h2]
  simp [hall, hdiff]

/-- Witness for C7 at the concrete July 4 event, expanded into 2030. -/
theorem oneDay_allDay_expansion_witness :
    isYearlyEvent jul4Ev = true ∧ jul4Ev.endDate = some ⟨1720137600000⟩ ∧
      expandRecurringForYear [jul4Ev] 2030 = [yearlyInstance jul4Ev 2030] ∧
      (yearlyInstance jul4Ev 2030).endDate = none := by
  refine ⟨by decide, by decide, ?_⟩
  exact oneDay_allDay_expansion_drops_end jul4Ev ⟨1720137600000⟩ 2030 (by decide) (by decide)
    (by decide) (by decide) (by decide)

/-! ## C8 -/

/-- Expansion distributes over append (the loop processes events
independently, in order). -/
theorem expandRecurringForYear_append (xs ys : List CalendarEvent) (y : Int) :
    expandRecurringForYear (xs ++ ys) y =
      expandRecurringForYear xs y ++ expandRecurringForYear ys y := by
  induction xs with
  | nil => rfl
  | cons ev rest ih => simp [expandRecurringForYear, ih]

/-- A single event's expansion output is a fixed point of expansion:
a yearly instance has no rule and starts in the target year; a kept
non-recurring event passes the same year test again. -/
theorem expandOne_fixed (ev : CalendarEvent) (y : Int) :
    expandRecurringForYear (expandOne ev y) y = expandOne ev y := by
  by_cases h : isYearlyEvent ev = true
  · have he : expandOne ev y = [yearlyInstance ev y] := by simp [expandOne, h]
    rw [he]
    show expandOne (yearlyInstance ev y) y ++ expandRecurringForYear [] y =
      [yearlyInstance ev y]
    rw [expandOne_nonYearly y (yearlyInstance_not_yearly ev y), yearlyInstance_startYear]
    simp
    rfl
  · have hf : isYearlyEvent ev = false := by simpa using h
    rw [expandOne_nonYearly y hf]
    split_ifs with hy
    · show expandOne ev y ++ expandRecurringForYear [] y = [ev]
      rw [expandOne_nonYearly y hf]
      simp [hy]
      rfl
    · rfl

/-- C8: recurrence expansion is idempotent — expanding an already
expanded list for the same target year changes nothing: expanded yearly
instances carry no recurrence rule and start in the target year, and
kept non-recurring events still pass the same year test. -/
theorem expandRecurringForYear_idempotent (es : List CalendarEvent) (y : Int) :
    expandRecurringForYear (expandRecurringForYear es y) y =
      expandRecurringForYear es y := by
  induction es with
  | nil => rfl
  | cons ev rest ih =>
    show expandRecurringForYear (expandOne ev y ++ expandRecurringForYear rest y) y = _
    rw [expandRecurringForYear_append, expandOne_fixed, ih]
    rfl

/-! ## C1 -/

/-- Rebuilding a UTC-midnight date from its getters and substituting a
year gives the midnight of the re-assembled day (year guard as above). -/
theorem expandEnd_midnight (ed : JSDate) (y : Int)
    (h : timeWithinDay ed.ms = 0)
    (hq : ¬(0 ≤ getUTCFullYear ed ∧ getUTCFullYear ed ≤ 99)) :
    (expandEnd ed y).ms =
      makeDay y (monthFromDay (dayNumber ed.ms)) (dateFromDay (dayNumber ed.ms)) *
        86400000 := by
  obtain ⟨hH, hM, hS⟩ := getters_of_midnight h
  unfold expandEnd
  unfold getUTCHours getUTCMinutes getUTCSeconds
  rw [hH, hM, hS]
  have hmid := dayNumber_dateUTC_midnight ed hq
  unfold setUTCFullYear
  rw [hmid]
  have hz0 : (0 : Int) ≤ 0 := le_refl 0
  have hzd : (0 : Int) < 86400000 := by norm_num
  have hday := dayNumber_makeDate (dayNumber ed.ms) hz0 hzd
  have htod := timeWithinDay_makeDate (dayNumber ed.ms) hz0 hzd
  unfold monthFromTime dateFromTime
  rw [hday, htod]
  unfold makeDate
  ring

/-- Re-assembling an extracted month/date in year `y` shifts the day
number by the two years' starts, provided the leap bits agree. -/
theorem makeDay_extract_sameLeap (D y : Int)
    (hL : leapBit y = leapBit (yearFromDay D)) :
    makeDay y (monthFromDay D) (dateFromDay D) = dayFromYear y + dayWithinYearD D := by
  obtain ⟨hm0, hm1⟩ := monthFromDay_bounds D
  rw [makeDay_of_bounds y (dateFromDay D) hm0 hm1, hL]
  have := monthStart_dateFromDay D
  omega

/-- C1 counterexample: the all-day yearly event Feb 28 2024 with
exclusive end Mar 2 2024 — an inclusive 3-day span (Feb 28, Feb 29,
Mar 1) — expanded into the non-leap year 2025 yields Feb 28 2025 with
exclusive end Mar 2 2025, an inclusive span of only 2 days: the claimed
span preservation fails across the leap boundary. -/
theorem threeDay_leap_span_not_preserved :
    (expandRecurringForYear
        [{ title := "T", startDate := ⟨1709078400000⟩, endDate := some ⟨1709337600000⟩,
           description := none, rrule := some "FREQ=YEARLY" }] 2025).map
      (fun e => (e.startDate.ms, Option.map JSDate.ms e.endDate)) =
      [(1740700800000, some 1740873600000)] ∧
    (1709337600000 : Int) - 1709078400000 = 3 * 86400000 ∧
    (1740873600000 : Int) - 1740700800000 = 2 * 86400000 := by
  refine ⟨by decide, by norm_num, by norm_num⟩

/-- C1 (amended): for a 3-day all-day yearly event, expansion rebuilds
both endpoints' month/day in the target year; the inclusive 3-day span
is preserved whenever the span stays inside one calendar year and the
target year has the same leap bit as the source year.  (Across a
Feb 29 boundary into a year of different leapness it is not — see the
counterexample.) -/
theorem threeDay_allDay_span_preserved (ev : CalendarEvent) (ed : JSDate) (y : Int)
    (h1 : isYearlyEvent ev = true)
    (h2 : ev.endDate = some ed)
    (h3 : timeWithinDay ev.startDate.ms = 0)
    (h4 : ed.ms = ev.startDate.ms + 3 * 86400000)
    (h5 : 100 ≤ getUTCFullYear ev.startDate)
    (h6 : getUTCFullYear ed = getUTCFullYear ev.startDate)
    (h7 : leapBit y = leapBit (getUTCFullYear ev.startDate)) :
    expandRecurringForYear [ev] y = [yearlyInstance ev y] ∧
      (yearlyInstance ev y).endDate = some (expandEnd ed y) ∧
      (expandEnd ed y).ms - (yearlyInstance ev y).startDate.ms = 3 * 86400000 := by
  obtain ⟨hsdH, hsdM, hsdS⟩ := getters_of_midnight h3
  have hedtod : timeWithinDay ed.ms = 0 := by
    unfold timeWithinDay at h3 ⊢; omega
  obtain ⟨hedH, hedM, hedS⟩ := getters_of_midnight hedtod
  have hall : isAllDayEvent ev = true := by
    unfold isAllDayEvent getUTCHours getUTCMinutes getUTCSeconds
    rw [h2]
    simp [hsdH, hsdM, hsdS, hedH, hedM, hedS]
  have hdayed : dayNumber ed.ms = dayNumber ev.startDate.ms + 3 := by
    unfold timeWithinDay at h3
    unfold dayNumber
    omega
  have hq : ¬(0 ≤ getUTCFullYear ev.startDate ∧ getUTCFullYear ev.startDate ≤ 99) := by
    omega
  have hqe : ¬(0 ≤ getUTCFullYear ed ∧ getUTCFullYear ed ≤ 99) := by omega
  have hsd_day := dayNumber_dateUTC_midnight ev.startDate hq
  have hed_day := dayNumber_dateUTC_midnight ed hqe
  have hdiff : icsDiffDays ev.startDate ed = 3 := by
    unfold icsDiffDays getTime
    rw [hed_day, hsd_day, hdayed]
    unfold makeDate
    omega
  have hnewEnd : expandNewEnd ev y = some (expandEnd ed y) := by
    unfold expandNewEnd
    rw [h2]
    simp [hall, hdiff]
  refine ⟨by simp [expandRecurringForYear, expandOne, h1], hnewEnd, ?_⟩
  have e1 : (yearlyInstance ev y).startDate = expandEnd ev.startDate y := rfl
  have s1 := expandEnd_midnight ev.startDate y h3 hq
  have s2 := expandEnd_midnight ed y hedtod hqe
  have hYeq : yearFromDay (dayNumber ed.ms) = yearFromDay (dayNumber ev.startDate.ms) := by
    unfold getUTCFullYear yearFromTime at h6
    exact h6
  have h7a : leapBit y = leapBit (yearFromDay (dayNumber ev.startDate.ms)) := by
    unfold getUTCFullYear yearFromTime at h7
    exact h7
  have k1 := makeDay_extract_sameLeap (dayNumber ev.startDate.ms) y h7a
  have k2 := makeDay_extract_sameLeap (dayNumber ed.ms) y (by rw [hYeq]; exact h7a)
  rw [e1, s1, s2, k1, k2]
  unfold dayWithinYearD
  rw [hYeq, hdayed]
  ring

/-- Witness for the amended C1: the 3-day span Jul 3–6 2023 expanded
into 2025 (same leap bit) still spans 3 days. -/
theorem threeDay_allDay_span_witness :
    100 ≤ getUTCFullYear (⟨1688342400000⟩ : JSDate) ∧
      (expandEnd ⟨1688601600000⟩ 2025).ms -
        (yearlyInstance jul3Ev 2025).startDate.ms = 3 * 86400000 :=
  ⟨by decide,
    (threeDay_allDay_span_preserved jul3Ev ⟨1688601600000⟩ 2025 (by decide) (by decide)
      (by decide) (by decide) (by decide) (by decide) (by decide)).2.2⟩

/-! ## C3 -/

/-- If the loose 8-digit scan fails on a list, it fails on every
suffix. -/
theorem scanYMD_none_drop {cs : List Char} (h : scanYMD cs = none) :
    ∀ n, leading8Digits (cs.drop n) = false := by
  induction cs with
  | nil =>
    intro n
    simp [List.drop_nil]
    decide
  | cons x rest ih =>
    intro n
    unfold scanYMD at h
    by_cases hl : leading8Digits (x :: rest) = true
    · rw [if_pos hl] at h
      exact absurd h (by simp)
    · rw [if_neg hl] at h
      match n with
      | 0 => simpa using hl
      | n + 1 => exact ih h n

/-- `dropWhile` removes an initial segment: it is some `drop`. -/
theorem dropWhile_is_drop (p : Char → Bool) (cs : List Char) :
    ∃ n, cs.dropWhile p = cs.drop n := by
  induction cs with
  | nil => exact ⟨0, rfl⟩
  | cons x rest ih =>
    by_cases h : p x
    · obtain ⟨n, hn⟩ := ih
      exact ⟨n + 1, by simpa [List.dropWhile_cons, h] using hn⟩
    · exact ⟨0, by simp [List.dropWhile_cons, h]⟩

/-- Trimming from the right keeps a prefix. -/
theorem revDropRev_append (p : Char → Bool) (l : List Char) :
    ∃ t, (l.reverse.dropWhile p).reverse ++ t = l := by
  obtain ⟨k, hk⟩ := dropWhile_is_drop p l.reverse
  refine ⟨l.drop (l.length - k), ?_⟩
  rw [hk]
  have : (l.reverse.drop k).reverse = l.take (l.length - k) := by
    rw [List.reverse_drop]
    simp
  rw [this, List.take_append_drop]

/-- An 8-digit prefix survives appending. -/
theorem leading8_of_append {l : List Char} (t : List Char)
    (h : leading8Digits l = true) : leading8Digits (l ++ t) = true := by
  unfold leading8Digits at h ⊢
  simp only [Bool.and_eq_true, decide_eq_true_eq] at h ⊢
  obtain ⟨h1, h2⟩ := h
  refine ⟨by simp; omega, ?_⟩
  rw [List.take_append_of_le_length (by omega)]
  exact h2

/-- The trimmed token is a prefix of some suffix of the raw token. -/
theorem jsTrim_structure (cs : List Char) : ∃ n t, jsTrim cs ++ t = cs.drop n := by
  unfold jsTrim
  obtain ⟨n, hn⟩ := dropWhile_is_drop (isJsSpace ·) cs
  obtain ⟨t, ht⟩ := revDropRev_append (isJsSpace ·) (cs.dropWhile (isJsSpace ·))
  exact ⟨n, t, ht.trans hn⟩

/-- When the loose scan fails, the anchored pattern cannot match on the
trimmed token either. -/
theorem leading8_trim_of_scan_none {cs : List Char} (h : scanYMD cs = none) :
    leading8Digits (jsTrim cs) = false := by
  by_contra hl
  have hl2 : leading8Digits (jsTrim cs) = true := by simpa using hl
  obtain ⟨n, t, hnt⟩ := jsTrim_structure cs
  have h8 : leading8Digits (cs.drop n) = true := by
    rw [← hnt]
    exact leading8_of_append t hl2
  rw [scanYMD_none_drop h n] at h8
  exact absurd h8 (by simp)

/-- C3 counterexample: on a token without 8 consecutive digits the Date
Normalizer itself evaluates to the current instant — a plain date, not
a typed `DateParseError`; there is no error for a caller to handle. -/
theorem parseICSDate_no_error_substitutes_now :
    parseICSDate 0 ⟨987654321⟩ "not a date token" = ⟨987654321⟩ := by decide

/-- C3 (amended): for every input token in which no 8 consecutive
digits can be extracted, `parseICSDate` itself returns the current
instant `now`; it is total — no `DateParseError` exists and document
parsing can never be aborted by a date token. -/
theorem parseICSDate_returns_now (tzMs : Int) (now : JSDate) (s : String)
    (h : scanYMD s.toList = none) :
    parseICSDate tzMs now s = now := by
  have h2 : scanYMD s.data = none := h
  unfold parseICSDate parseICSDateL
  simp [leading8_trim_of_scan_none h2, h2]

/-- Witness for the amended C3 at a concrete digit-free token. -/
theorem parseICSDate_returns_now_witness :
    scanYMD "hello".toList = none ∧ parseICSDate 0 ⟨7⟩ "hello" = ⟨7⟩ :=
  ⟨by decide, parseICSDate_returns_now 0 ⟨7⟩ "hello" (by decide)⟩

/-- A non-marker line only updates the open accumulator (or does
nothing when no event is open). -/
theorem processLine_nonMarker (tzMs : Int) (now : JSDate) {line : List Char}
    (h : isMarkerLine line = false) (st : ICSState) :
    processLine tzMs now st line =
      { st with current := st.current.map (fun acc => propStep tzMs now acc line) } := by
  unfold processLine propStep
  by_cases h1 : jsTrim line = []
  · simp [h1]
  · cases hc : splitColon line with
    | none => simp [h1, hc]
    | some pv =>
      obtain ⟨propPart, value⟩ := pv
      unfold isMarkerLine at h
      rw [hc] at h
      simp only [Bool.and_eq_false_iff, Bool.or_eq_false_iff, decide_eq_false_iff_not,
        Decidable.not_not] at h
      have hnm : ¬((toUpperL (beforeSemi propPart) = "BEGIN".toList ∨
          toUpperL (beforeSemi propPart) = "END".toList) ∧
          toUpperL value = "VEVENT".toList) := by
        rcases h with h | h
        · exact absurd h1 (by simpa using h)
        · rcases h with ⟨h2, h3⟩ | h2
          · intro hcon
            rcases hcon.1 with hb | he
            · exact absurd hb h2
            · exact absurd he h3
          · intro hcon
            exact absurd hcon.2 h2
      have hb : ¬(toUpperL (beforeSemi propPart) = "BEGIN".toList ∧
          toUpperL value = "VEVENT".toList) := fun hcon => hnm ⟨Or.inl hcon.1, hcon.2⟩
      have he : ¬(toUpperL (beforeSemi propPart) = "END".toList ∧
          toUpperL value = "VEVENT".toList) := fun hcon => hnm ⟨Or.inr hcon.1, hcon.2⟩
      simp only [h1, hc, if_neg hb, if_neg he, if_neg h1]
      obtain ⟨evs, cur⟩ := st
      cases cur <;> simp

/-- `processLines` splits over appends. -/
theorem processLines_append (tzMs : Int) (now : JSDate) (xs ys : List (List Char))
    (st : ICSState) :
    processLines tzMs now st (xs ++ ys) =
      processLines tzMs now (processLines tzMs now st xs) ys := by
  induction xs generalizing st with
  | nil => rfl
  | cons l ls ih => exact ih (processLine tzMs now st l)

/-- Over non-marker lines the machine just folds `propStep` into the
open accumulator. -/
theorem processLines_props (tzMs : Int) (now : JSDate) (props : List (List Char))
    (h : ∀ l ∈ props, isMarkerLine l = false) (st : ICSState) :
    processLines tzMs now st props =
      { st with current :=
          st.current.map (fun acc => props.foldl (propStep tzMs now) acc) } := by
  induction props generalizing st with
  | nil =>
    obtain ⟨evs, cur⟩ := st
    cases cur <;> rfl
  | cons l ls ih =>
    have hl := h l (by simp)
    have hrest : ∀ x ∈ ls, isMarkerLine x = false := fun x hx => h x (by simp [hx])
    show processLines tzMs now (processLine tzMs now st l) ls = _
    rw [processLine_nonMarker tzMs now hl st, ih hrest]
    obtain ⟨evs, cur⟩ := st
    cases cur <;> rfl

/-- C6: commit behaviour of the Event Parser.  For a block
`BEGIN:VEVENT`, property lines, `END:VEVENT`: (a) the machine ends with
no open accumulator and appends exactly the commit of the folded
accumulator; (b) a `BEGIN:VEVENT` while an event is open discards the
partial accumulator and opens a fresh one; (c) the commit is non-empty
iff the accumulator has a non-empty title and a parsed start instant —
otherwise the accumulator is dropped without error.  (`processLines` is
a total function, so parsing always returns a list and never aborts.) -/
theorem parseICS_commit_rule (tzMs : Int) (now : JSDate) (props : List (List Char))
    (h : ∀ l ∈ props, isMarkerLine l = false) (st : ICSState) :
    processLines tzMs now st ("BEGIN:VEVENT".toList :: (props ++ ["END:VEVENT".toList])) =
      { events := st.events ++ commitAcc (props.foldl (propStep tzMs now) {}),
        current := none } ∧
      (∀ acc0 : ICSAcc,
        processLine tzMs now { events := st.events, current := some acc0 }
          "BEGIN:VEVENT".toList = { events := st.events, current := some {} }) ∧
      (∀ acc : ICSAcc,
        (∃ t s, acc.title = some t ∧ t ≠ "" ∧ acc.startDate = some s ∧
          commitAcc acc = [⟨t, s, acc.endDate, acc.description, acc.rrule⟩]) ∨
        (commitAcc acc = [] ∧
          (acc.title = none ∨ acc.title = some "" ∨ acc.startDate = none))) := by
  refine ⟨?_, fun acc0 => rfl, ?_⟩
  · show processLines tzMs now
      (processLine tzMs now st "BEGIN:VEVENT".toList) (props ++ ["END:VEVENT".toList]) = _
    have hb : processLine tzMs now st "BEGIN:VEVENT".toList =
        { st with current := some {} } := rfl
    rw [hb, processLines_append,
      processLines_props tzMs now props h { st with current := some {} }]
    rfl
  · intro acc
    obtain ⟨ot, os, oe, od, orr⟩ := acc
    cases ot with
    | none => exact Or.inr ⟨rfl, Or.inl rfl⟩
    | some t =>
      cases os with
      | none => exact Or.inr ⟨by unfold commitAcc; simp, Or.inr (Or.inr rfl)⟩
      | some s =>
        by_cases ht : t = ""
        · subst ht
          exact Or.inr ⟨by unfold commitAcc; simp, Or.inr (Or.inl rfl)⟩
        · exact Or.inl ⟨t, s, rfl, ht, rfl, by unfold commitAcc; simp [ht]⟩

/-- Witness for C6 on a concrete block with a title and start date. -/
theorem parseICS_commit_rule_witness :
    (∀ l ∈ c6props, isMarkerLine l = false) ∧
      processLines 0 ⟨5⟩ ⟨[], none⟩
        ("BEGIN:VEVENT".toList :: (c6props ++ ["END:VEVENT".toList])) =
        { events := [] ++ commitAcc (c6props.foldl (propStep 0 ⟨5⟩) {}),
          current := none } :=
  ⟨by decide, (parseICS_commit_rule 0 ⟨5⟩ c6props (by decide) ⟨[], none⟩).1⟩

/-- C4 counterexample: a 30-day month starting on weekday 1 in standard
mode yields 38 cells — there is no trailing padding, so the claimed
total `7 × (1 + ceil((daysInMonth + firstWeekday)/7)) = 42` is wrong. -/
theorem standardGrid_total_counterexample :
    (gridCellsOf englishNames 0 2025 5 30 1 0).length = 38 ∧
      7 * (1 + jsCeilDiv (30 + 1) 7) = 42 ∧ (38 : Int) ≠ 42 := by
  refine ⟨by decide, by decide, by decide⟩

/-- C4 (amended): in standard mode the grid emits exactly
`7 + firstWeekday + daysInMonth` cells — 7 weekday headers, then
`firstWeekday` blanks, then one day cell per day, with **no** trailing
padding — and the day-cell subsequence, filtered to non-blank, is
exactly `1..daysInMonth` in order. -/
theorem standardGrid_cells (names : WeekdayNames) (tzMs year month d f : Int) :
    (gridCellsOf names tzMs year month d f 0).length = 7 + f.toNat + d.toNat ∧
      dayCellNumbers (gridCellsOf names tzMs year month d f 0) =
        (List.range d.toNat).map (fun (i : ℕ) => (i : Int) + 1) := by
  constructor
  · unfold gridCellsOf
    simp
    omega
  · unfold gridCellsOf dayCellNumbers
    rw [if_pos rfl]
    rw [List.filterMap_append, List.filterMap_append]
    rw [List.filterMap_map, List.filterMap_map, List.filterMap_map]
    have h1 : (["Sun", "Mon", "Tue", "Wed", "Thu", "Fri", "Sat"].filterMap
        ((fun c : GridCell =>
          match c.day with
          | some n => if 1 ≤ n then some n else none
          | none => none) ∘ fun n => { day := none, label := n })) = [] := by decide
    have h2 : ((List.range f.toNat).filterMap
        ((fun c : GridCell =>
          match c.day with
          | some n => if 1 ≤ n then some n else none
          | none => none) ∘ fun (_ : ℕ) => ({ day := some (-1), label := "" } : GridCell))) =
        [] := by
      rw [List.filterMap_eq_nil_iff]
      intro a _
      simp
    have h3 : ((List.range d.toNat).filterMap
        ((fun c : GridCell =>
          match c.day with
          | some n => if 1 ≤ n then some n else none
          | none => none) ∘
            fun (i : ℕ) => ({ day := some ((i : Int) + 1), label := "" } : GridCell))) =
        (List.range d.toNat).map (fun (i : ℕ) => (i : Int) + 1) := by
      have hfun : ((fun c : GridCell =>
          match c.day with
          | some n => if 1 ≤ n then some n else none
          | none => none) ∘
            fun (i : ℕ) => ({ day := some ((i : Int) + 1), label := "" } : GridCell)) =
          some ∘ fun (i : ℕ) => (i : Int) + 1 := by
        funext i
        simp only [Function.comp]
        rw [if_pos (by omega)]
      rw [hfun, List.filterMap_eq_map]
    rw [h1, h2, h3]
    simp

/-! ## C5 -/

/-- `getD` on a mapped range. -/
theorem getD_map_range (g : ℕ → β) {m i : ℕ} (dflt : β) (h : i < m) :
    ((List.range m).map g).getD i dflt = g i := by
  rw [List.getD_eq_getElem?_getD]
  simp [List.getElem?_map, List.getElem?_range, h]

/-- Length of a `flatMap` over `range` with constant block length. -/
theorem flatMap_range_length (f : ℕ → List α) (n L : ℕ) (hf : ∀ r, (f r).length = L) :
    ((List.range n).flatMap f).length = n * L := by
  induction n with
  | zero => simp
  | succ n ih =>
    rw [List.range_succ, List.flatMap_append]
    simp only [List.length_append, ih, List.flatMap_cons, List.flatMap_nil,
      List.append_nil, hf]
    ring

/-- Indexing a `flatMap` over `range` with constant block length. -/
theorem flatMap_range_getD (f : ℕ → List α) (n L : ℕ) (hf : ∀ r, (f r).length = L)
    (dflt : α) (i : ℕ) (hi : i < n * L) :
    ((List.range n).flatMap f).getD i dflt = (f (i / L)).getD (i % L) dflt := by
  induction n with
  | zero => omega
  | succ n ih =>
    rw [List.range_succ, List.flatMap_append]
    have hlen := flatMap_range_length f n L hf
    rw [Nat.succ_mul] at hi
    by_cases h : i < n * L
    · rw [List.getD_append _ _ _ _ (by rw [hlen]; exact h)]
      exact ih h
    · have hL : 0 < L := by omega
      have hr : i - n * L < L := by omega
      have h1 : i = (i - n * L) + n * L := by omega
      have hdiv : i / L = n := by
        rw [h1, Nat.add_mul_div_right _ _ hL, Nat.div_eq_of_lt hr]
        omega
      have hmod : i % L = i - n * L := by
        have h2 := Nat.mod_add_div i L
        rw [hdiv] at h2
        have h3 : L * n = n * L := Nat.mul_comm L n
        omega
      rw [List.getD_append_right _ _ _ _ (by rw [hlen]; omega)]
      rw [hlen, hdiv, hmod]
      simp

/-- Each strip pair contributes a header row and a day row of `columns`
cells each. -/
theorem stripPairCells_length (names : WeekdayNames) (tzMs year month d cols : Int)
    (r : ℕ) :
    (stripPairCells names tzMs year month d cols r).length = 2 * cols.toNat := by
  unfold stripPairCells
  simp
  omega

/-- Within one pair, a cell is a Blank pad exactly when its running day
number `r*columns + (j mod columns) + 1` exceeds `daysInMonth`. -/
theorem stripPairCells_pad_iff (names : WeekdayNames) (tzMs year month d cols : Int)
    (hcols : 0 ≤ cols) (r j : ℕ) (hj : j < 2 * cols.toNat) :
    (((stripPairCells names tzMs year month d cols r).getD j ⟨none, ""⟩).day =
        some (-1)) ↔
      d < (r : Int) * cols + ((j % cols.toNat : ℕ) : Int) + 1 := by
  have hc0 : 0 < cols.toNat := by omega
  have hrc : 0 ≤ (r : Int) * cols := mul_nonneg (Int.natCast_nonneg r) hcols
  unfold stripPairCells
  by_cases hcase : j < cols.toNat
  · rw [List.getD_append _ _ _ _ (by simp; omega)]
    rw [getD_map_range _ _ hcase]
    rw [Nat.mod_eq_of_lt hcase]
    by_cases hd : (r : Int) * cols + (j : Int) + 1 ≤ d
    · rw [if_pos hd]
      simp
      omega
    · rw [if_neg hd]
      simp
      omega
  · rw [List.getD_append_right _ _ _ _ (by simp; omega)]
    have hlen : (List.map (fun (c : ℕ) =>
        if ((r : Int) * cols + (c : Int) + 1) ≤ d then
          ({ day := none,
             label := getDayLabel names tzMs
               (newDateLocal tzMs year month ((r : Int) * cols + (c : Int) + 1) 0 0 0)
               cols } : GridCell)
        else { day := some (-1), label := "" }) (List.range cols.toNat)).length =
        cols.toNat := by simp
    rw [hlen]
    have hsub : j - cols.toNat < cols.toNat := by omega
    rw [getD_map_range _ _ hsub]
    have hmod : j % cols.toNat = j - cols.toNat := by
      rw [Nat.mod_eq_sub_mod (by omega), Nat.mod_eq_of_lt hsub]
    rw [hmod]
    by_cases hd : (r : Int) * cols + ((j - cols.toNat : ℕ) : Int) + 1 ≤ d
    · rw [if_pos hd]
      simp
      constructor
      · intro hcon
        omega
      · intro hcon
        omega
    · rw [if_neg hd]
      simp
      omega

/-- The header row of a strip pair contributes no day numbers. -/
theorem headerRow_dayNumbers (names : WeekdayNames) (tzMs year month d cols a : Int)
    (m : ℕ) :
    (((List.range m).map fun (c : ℕ) =>
      if (a + (c : Int) + 1) ≤ d then
        ({ day := none,
           label := getDayLabel names tzMs
             (newDateLocal tzMs year month (a + (c : Int) + 1) 0 0 0) cols } : GridCell)
      else { day := some (-1), label := "" }).filterMap fun c =>
        match c.day with
        | some n => if 1 ≤ n then some n else none
        | none => none) = [] := by
  rw [List.filterMap_eq_nil_iff]
  intro x hx
  simp only [List.mem_map] at hx
  obtain ⟨c, _, rfl⟩ := hx
  by_cases h : (a + (c : Int) + 1) ≤ d
  · rw [if_pos h]
  · rw [if_neg h]
    simp

/-- The day numbers kept from one day row: exactly the dates still at
most `daysInMonth`. -/
theorem dayRow_dayNumbers (a d : Int) (ha : 0 ≤ a) (m : ℕ) :
    (((List.range m).map fun (c : ℕ) =>
      if (a + (c : Int) + 1) ≤ d then
        ({ day := some (a + (c : Int) + 1), label := "" } : GridCell)
      else { day := some (-1), label := "" }).filterMap fun c =>
        match c.day with
        | some n => if 1 ≤ n then some n else none
        | none => none) =
      (List.range (min m (d - a).toNat)).map (fun (c : ℕ) => a + (c : Int) + 1) := by
  induction m with
  | zero => simp
  | succ m ih =>
    rw [List.range_succ, List.map_append, List.filterMap_append, ih]
    by_cases h : (a + (m : Int) + 1) ≤ d
    · have hm : min m (d - a).toNat = m := by omega
      have hm1 : min (m + 1) (d - a).toNat = m + 1 := by omega
      rw [hm, hm1, List.range_succ, List.map_append]
      simp only [List.map_cons, List.map_nil, List.filterMap_cons, List.filterMap_nil]
      rw [if_pos h]
      simp only []
      rw [if_pos (show (1 : Int) ≤ a + (m : Int) + 1 by omega)]
    · have hm1 : min (m + 1) (d - a).toNat = min m (d - a).toNat := by omega
      rw [hm1]
      simp only [List.map_cons, List.map_nil, List.filterMap_cons, List.filterMap_nil]
      rw [if_neg h]
      simp

/-- The day numbers of one strip pair. -/
theorem dayCellNumbers_stripPair (names : WeekdayNames) (tzMs year month d cols : Int)
    (hcols : 0 ≤ cols) (r : ℕ) :
    dayCellNumbers (stripPairCells names tzMs year month d cols r) =
      (List.range (min cols.toNat (d - (r : Int) * cols).toNat)).map
        (fun (c : ℕ) => (r : Int) * cols + (c : Int) + 1) := by
  have ha : 0 ≤ (r : Int) * cols := mul_nonneg (Int.natCast_nonneg r) hcols
  unfold stripPairCells dayCellNumbers
  rw [List.filterMap_append]
  rw [headerRow_dayNumbers names tzMs year month d cols ((r : Int) * cols) cols.toNat]
  rw [dayRow_dayNumbers ((r : Int) * cols) d ha cols.toNat]
  simp

/-- `dayCellNumbers` distributes over `flatMap`. -/
theorem dayCellNumbers_flatMap (l : List α) (f : α → List GridCell) :
    dayCellNumbers (l.flatMap f) = l.flatMap (fun a => dayCellNumbers (f a)) := by
  unfold dayCellNumbers
  induction l with
  | nil => simp
  | cons a l ih => simp [List.flatMap_cons, List.filterMap_append, ih]

/-- Gluing the rows: the per-row truncated day-number blocks concatenate
to the single run `1..min (n*C) d`. -/
theorem strip_glue (d C : Int) (hC : 0 ≤ C) (n : ℕ) :
    (List.range n).flatMap (fun r =>
        (List.range (min C.toNat (d - (r : Int) * C).toNat)).map
          (fun (c : ℕ) => (r : Int) * C + (c : Int) + 1)) =
      (List.range (min (n * C.toNat) d.toNat)).map (fun (j : ℕ) => (j : Int) + 1) := by
  have hCt : (C.toNat : Int) = C := Int.toNat_of_nonneg hC
  induction n with
  | zero => simp
  | succ n ih =>
    rw [List.range_succ, List.flatMap_append]
    simp only [List.flatMap_cons, List.flatMap_nil, List.append_nil]
    rw [ih]
    have hb : 0 ≤ (n : Int) * C := mul_nonneg (Int.natCast_nonneg n) hC
    have hprod : ((n * C.toNat : ℕ) : Int) = (n : Int) * C := by
      push_cast
      rw [hCt]
    have hsucc : (n + 1) * C.toNat = n * C.toNat + C.toNat := Nat.succ_mul n C.toNat
    by_cases h : d ≤ (n : Int) * C
    · have e1 : min C.toNat (d - (n : Int) * C).toNat = 0 := by omega
      have e2 : min ((n + 1) * C.toNat) d.toNat = min (n * C.toNat) d.toNat := by omega
      rw [e1, e2]
      simp
    · have e3 : min (n * C.toNat) d.toNat = n * C.toNat := by omega
      have e4 : min ((n + 1) * C.toNat) d.toNat =
          n * C.toNat + min C.toNat (d - (n : Int) * C).toNat := by omega
      rw [e3, e4, List.range_add, List.map_append]
      congr 1
      rw [List.map_map]
      apply List.map_congr_left
      intro c hc
      simp only [Function.comp]
      push_cast
      omega

/-- `Math.ceil(d / R) * R` is at least `d` (for `R > 0`). -/
theorem le_mul_jsCeilDiv (d R : Int) (hR : 0 < R) : d ≤ R * jsCeilDiv d R := by
  unfold jsCeilDiv
  have h1 := Int.ediv_add_emod (-d) R
  have h2 := Int.emod_nonneg (-d) (by omega : R ≠ 0)
  rw [mul_neg]
  linarith

/-- The column count of the strip grid is positive when the month is
nonempty. -/
theorem jsCeilDiv_pos (d R : Int) (hR : 0 < R) (hd : 0 < d) : 0 < jsCeilDiv d R := by
  by_contra h
  push_neg at h
  have h1 := le_mul_jsCeilDiv d R hR
  have h2 : R * jsCeilDiv d R ≤ 0 := mul_nonpos_of_nonneg_of_nonpos (le_of_lt hR) h
  omega

/-- C5 counterexample: a 29-day month laid out in R = 7 strip rows has
`columns = ceil(29/7) = 5`; the 6th pair (index 5, not the final one —
pairs run 0..6 over 70 cells) already contains a Blank pad, at cell 59
(date number 30 > 29).  Pads are therefore **not** confined to the
final row. -/
theorem stripPad_outside_final_counterexample :
    (gridCellsOf englishNames 0 2024 1 29 0 7).length = 70 ∧
      jsCeilDiv 29 7 = 5 ∧
      ((gridCellsOf englishNames 0 2024 1 29 0 7).getD 59 ⟨none, ""⟩).day = some (-1) ∧
      59 / (2 * 5) = 5 ∧ (5 : ℕ) ≠ 7 - 1 := by
  refine ⟨by decide, by decide, by decide, by decide, by decide⟩

/-- C5 (amended): for a month of `d ≥ 1` days and a row policy `R > 0`,
linear-strip mode emits exactly `R` header/day pairs of `2 × columns`
cells (`columns = ceil(d / R)`), the day numbers carried by the day
cells are exactly `1..d` in order, and a cell is a Blank pad exactly
when its running date number `pair*columns + (position mod columns) + 1`
exceeds `d` — which can already happen before the final pair. -/
theorem stripGrid_cells (names : WeekdayNames) (tzMs year month d f R : Int)
    (hR : 0 < R) (hd : 0 < d) :
    (gridCellsOf names tzMs year month d f R).length =
        R.toNat * (2 * (jsCeilDiv d R).toNat) ∧
      dayCellNumbers (gridCellsOf names tzMs year month d f R) =
        (List.range d.toNat).map (fun (j : ℕ) => (j : Int) + 1) ∧
      ∀ i : ℕ, i < R.toNat * (2 * (jsCeilDiv d R).toNat) →
        (((gridCellsOf names tzMs year month d f R).getD i ⟨none, ""⟩).day = some (-1) ↔
          d < ((i / (2 * (jsCeilDiv d R).toNat) : ℕ) : Int) * jsCeilDiv d R +
            ((i % (2 * (jsCeilDiv d R).toNat) % (jsCeilDiv d R).toNat : ℕ) : Int) + 1) := by
  have hcpos : 0 < jsCeilDiv d R := jsCeilDiv_pos d R hR hd
  have hc0 : (0 : Int) ≤ jsCeilDiv d R := le_of_lt hcpos
  have hRne : ¬ R = 0 := by omega
  unfold gridCellsOf
  rw [if_neg hRne]
  refine ⟨?_, ?_, ?_⟩
  · exact flatMap_range_length _ R.toNat (2 * (jsCeilDiv d R).toNat)
      (fun r => stripPairCells_length names tzMs year month d (jsCeilDiv d R) r)
  · rw [dayCellNumbers_flatMap]
    simp only [dayCellNumbers_stripPair names tzMs year month d (jsCeilDiv d R) hc0]
    rw [strip_glue d (jsCeilDiv d R) hc0 R.toNat]
    have hprod : ((R.toNat * (jsCeilDiv d R).toNat : ℕ) : Int) = R * jsCeilDiv d R := by
      rw [Nat.cast_mul, Int.toNat_of_nonneg (le_of_lt hR), Int.toNat_of_nonneg hc0]
    have hge := le_mul_jsCeilDiv d R hR
    have hmin : min (R.toNat * (jsCeilDiv d R).toNat) d.toNat = d.toNat := by omega
    rw [hmin]
  · intro i hi
    rw [flatMap_range_getD _ R.toNat (2 * (jsCeilDiv d R).toNat)
      (fun r => stripPairCells_length names tzMs year month d (jsCeilDiv d R) r) _ i hi]
    exact stripPairCells_pad_iff names tzMs year month d (jsCeilDiv d R) hc0
      (i / (2 * (jsCeilDiv d R).toNat)) (i % (2 * (jsCeilDiv d R).toNat))
      (Nat.mod_lt i (by omega))

/-- Witness for the amended C5 at a concrete month (29 days, 7 rows). -/
theorem stripGrid_cells_witness :
    (0 : Int) < 7 ∧ (0 : Int) < 29 ∧
      ((gridCellsOf englishNames 0 2024 1 29 0 7).length =
          (7 : Int).toNat * (2 * (jsCeilDiv 29 7).toNat) ∧
        dayCellNumbers (gridCellsOf englishNames 0 2024 1 29 0 7) =
          (List.range (29 : Int).toNat).map (fun (j : ℕ) => (j : Int) + 1) ∧
        ∀ i : ℕ, i < (7 : Int).toNat * (2 * (jsCeilDiv 29 7).toNat) →
          (((gridCellsOf englishNames 0 2024 1 29 0 7).getD i ⟨none, ""⟩).day = some (-1) ↔
            (29 : Int) < ((i / (2 * (jsCeilDiv 29 7).toNat) : ℕ) : Int) * jsCeilDiv 29 7 +
              ((i % (2 * (jsCeilDiv 29 7).toNat) % (jsCeilDiv 29 7).toNat : ℕ) : Int) + 1)) :=
  ⟨by decide, by decide, stripGrid_cells englishNames 0 2024 1 29 0 7 (by decide) (by decide)⟩
